/-
Formal model of the GDG Study Jam Leaderboard repository.

The repository holds two near-duplicate Flask applications:
  * `app.py` (the optimized one), modelled in namespace `App`;
  * `GDG-Study-Jam-Leaderboard-main/app.py`, modelled in namespace `MainApp`.

Modelling conventions:
  * A Supabase row is a `Row`: the `name`/`email` columns may be absent
    (`Option String`, `none` = key not present in the dict), and each lab
    column is looked up through `labValue`; both programs only compare a
    lab column against the literal "Yes" via `row.get(lab) == "Yes"`.
  * The external fetch is a parameter of type `Except String (List Row)`:
    `Except.error` models the Supabase call raising an exception.
  * Python dictionaries that may or may not carry a key are structures with
    `Option` fields (`none` = key absent from the JSON object).
  * Python's `round` applied to the (float) quotient of two integers is
    modelled exactly on the rational `num/den` by `pyRoundDiv` (round half
    to even); all quotients rounded by the programs are of this shape,
    `round((a/b)*100)` being `pyRoundDiv (100*a) b`.
  * Python's stable `list.sort(key=..., reverse=True)` is modelled by the
    stable descending insertion sort `sortDescBy` (a stable sort's output
    is uniquely determined by the key, so any stable model is faithful).
-/
import Mathlib

/-- Python's `round(num/den)` computed exactly on the rational `num/den`
(`den > 0` at every call site in the programs): nearest integer, ties to
even, which is Python's (banker's) rounding of the exact quotient. -/
def pyRoundDiv (num den : Int) : Int :=
  if 2 * (num % den) < den then num / den
  else if den < 2 * (num % den) then num / den + 1
  else if (num / den) % 2 = 0 then num / den
  else num / den + 1

/-- A raw participant row from the `participants` table.  `name`/`email`
may be absent; `labValue` gives the (string) value stored under a lab-name
column, `none` when the column/key is absent. -/
structure Row where
  name : Option String
  email : Option String
  labValue : String → Option String

/-- `row.get(lab) == "Yes"` — the completion test used by both files. -/
def rowYes (r : Row) (lab : String) : Bool := r.labValue lab == some "Yes"

/-- The fixed lab catalog `LABS`, identical (element for element) in both
files, and identical to `LAB_NAMES` in `get_participant_data`. -/
def LABS : List String :=
  ["The Basics of Google Cloud Compute", "Get Started with Cloud Storage",
   "Get Started with Pub_Sub", "Get Started with API Gateway",
   "Get Started with Looker", "Get Started with Dataplex",
   "Get Started with Google Workspace Tools", "App Building with AppSheet",
   "Develop with Apps Script and AppSheet",
   "Develop GenAI Apps with Gemini and Streamlit",
   "Build a Website on Google Cloud", "Set Up a Google Cloud Network",
   "Store, Process, and Manage Data on Google Cloud - Console",
   "Cloud Run Functions: 3 Ways", "App Engine: 3 Ways",
   "Cloud Speech API: 3 Ways", "Analyze Speech and Language with Google APIs",
   "Monitoring in Google Cloud", "Prompt Design in Vertex AI"]

/-- Python's whitespace test for `str.split()` (ASCII whitespace). -/
def pyIsSpace (c : Char) : Bool :=
  c == ' ' || c == '\t' || c == '\n' || c == '\r' || c == '\x0b' || c == '\x0c'

/-- Helper for `pySplit`: tokenizes a character list, accumulating the
current (reversed) token in `acc`; empty tokens are never produced. -/
def pySplitAux : List Char → List Char → List String
  | [], acc => if acc.isEmpty then [] else [String.mk acc.reverse]
  | c :: cs, acc =>
    if pyIsSpace c then
      if acc.isEmpty then pySplitAux cs []
      else String.mk acc.reverse :: pySplitAux cs []
    else pySplitAux cs (c :: acc)

/-- Python's `name.split()`: split on runs of whitespace, no empty tokens. -/
def pySplit (s : String) : List String := pySplitAux s.data []

/-- `t[0].upper()` for a token `t` (tokens from `pySplit` are nonempty). -/
def firstUpper (t : String) : String :=
  match t.data with
  | [] => ""
  | c :: _ => String.mk [c.toUpper]

/-- `get_initials`, identical in both files. -/
def get_initials (name : String) : String :=
  match pySplit name with
  | p1 :: p2 :: _ => firstUpper p1 ++ firstUpper p2
  | [p1] => firstUpper p1
  | [] => ""

/-- Stable descending insertion: place `x` before the first element whose
key is strictly smaller, hence after all earlier elements of equal key. -/
def insLE {α : Type} (key : α → Nat) (x : α) : List α → List α
  | [] => [x]
  | y :: ys => if key y < key x then x :: y :: ys else y :: insLE key x ys

/-- Stable sort, descending by `key`: the behaviour of Python's stable
`sort(key=..., reverse=True)` / `sorted(..., key=..., reverse=True)`. -/
def sortDescBy {α : Type} (key : α → Nat) (l : List α) : List α :=
  l.foldl (fun acc y => insLE key y acc) []

/-- One entry of `processed_participants` / `ranking_list`: the fields both
loops store per row before sorting. -/
structure Summary where
  name : String
  email : String
  completed_labs : Nat
  name_of_completed_labs : List String
deriving DecidableEq

/-- One entry of the final per-participant output.  `email`, `badge_count`
and `completion_percentage` are `Option`s because the second file's
pipeline omits `email` and only adds the other two in its progress
endpoint (`none` = key absent from the dict). -/
structure Ranked where
  name : String
  email : Option String
  completed_labs : Nat
  name_of_completed_labs : List String
  rank : Nat
  initials : String
  badge_count : Option Nat
  completion_percentage : Option Int
deriving DecidableEq

structure TopPerformer where
  name : String
  initials : String
  badges : Nat
deriving DecidableEq

/-- The JSON object returned by `/api/home-data`. -/
structure HomePayload where
  total_participants : Nat
  completion_percentage : Int
  average_progress : Int
  top_performer : TopPerformer
  badge_completion_rate : List (String × Nat)
  badge_popularity : List (String × Nat)
deriving DecidableEq

/-- The JSON object returned by `/api/progress-data`. -/
structure ProgressPayload where
  labs : List String
  participants : List Ranked
deriving DecidableEq

/-- The labs of `catalog` a row completed, in catalog order — the list the
first file appends to, and `name_of_lab` in the second file. -/
def completedList (catalog : List String) (r : Row) : List String :=
  catalog.filter (rowYes r)

/-- The dict appended to `processed_participants` for one row
(`row.get("name", "N/A")`, `row.get("email", "N/A")`). -/
def processRow (catalog : List String) (r : Row) : Summary :=
  { name := r.name.getD "N/A"
    email := r.email.getD "N/A"
    completed_labs := (completedList catalog r).length
    name_of_completed_labs := completedList catalog r }

/-- `processed_participants` before sorting, in input order. -/
def summariesRaw (catalog : List String) (records : List Row) : List Summary :=
  records.map (processRow catalog)

/-- `lab_completion_counts[lab] += 1`: bump the entry of key `k`. -/
def bumpLab (m : List (String × Nat)) (k : String) : List (String × Nat) :=
  m.map (fun p => if p.1 = k then (p.1, p.2 + 1) else p)

/-- The inner `for lab in LABS` loop of one row, threading the counts. -/
def applyRow (r : Row) : List String → List (String × Nat) → List (String × Nat)
  | [], m => m
  | lab :: labs, m => applyRow r labs (if rowYes r lab then bumpLab m lab else m)

/-- The outer `for row in all_participants_raw` loop over the counts. -/
def tallyRows (catalog : List String) : List Row → List (String × Nat) → List (String × Nat)
  | [], m => m
  | r :: rs, m => tallyRows catalog rs (applyRow r catalog m)

/-- `{lab: 0 for lab in LABS}`: Python dict-comprehension keys are the
first occurrences, each once, in order. -/
def labCountsInit (catalog : List String) : List (String × Nat) :=
  catalog.dedup.map (fun lab => (lab, 0))

/-- The `lab_completion_counts` dict after the processing loop. -/
def labCountsOf (catalog : List String) (records : List Row) : List (String × Nat) :=
  tallyRows catalog records (labCountsInit catalog)

/-- `processed_participants` after the stable descending sort by
`completed_labs`. -/
def sortedSummaries (catalog : List String) (records : List Row) : List Summary :=
  sortDescBy (fun s => s.completed_labs) (summariesRaw catalog records)

/-- `round((completed / len(LABS)) * 100) if LABS else 0`. -/
def srcPct (catalog : List String) (c : Nat) : Int :=
  if catalog.isEmpty then 0 else pyRoundDiv (100 * (c : Int)) (catalog.length : Int)

namespace App

/-- The derived-field pass of `get_processed_participant_data`: rank,
initials, `badge_count`, `completion_percentage` on one sorted entry. -/
def addRank (catalog : List String) (n : Nat) (s : Summary) : Ranked :=
  { name := s.name
    email := some s.email
    completed_labs := s.completed_labs
    name_of_completed_labs := s.name_of_completed_labs
    rank := n
    initials := get_initials s.name
    badge_count := some s.completed_labs
    completion_percentage := some (srcPct catalog s.completed_labs) }

/-- `for rank, user in enumerate(processed_participants, start=1)`. -/
def addRanks (catalog : List String) : Nat → List Summary → List Ranked
  | _, [] => []
  | n, s :: rest => addRank catalog n s :: addRanks catalog (n + 1) rest

/-- `final_participant_data` for a successfully fetched record list. -/
def finalData (catalog : List String) (records : List Row) : List Ranked :=
  addRanks catalog 1 (sortedSummaries catalog records)

/-- `get_processed_participant_data` of `app.py`: on a fetch error it
returns `([], {lab: 0 for lab in LABS})`, otherwise the processed,
sorted, ranked list together with the lab completion counts. -/
def get_processed_participant_data (fetch : Except String (List Row)) :
    List Ranked × List (String × Nat) :=
  match fetch with
  | Except.error _ => ([], labCountsInit LABS)
  | Except.ok rows => (finalData LABS rows, labCountsOf LABS rows)

/-- `/api/home-data` of `app.py`.  Matching on the participant list is the
`total_participants == 0` guard of the source. -/
def get_stats (fetch : Except String (List Row)) : HomePayload :=
  match get_processed_participant_data fetch with
  | (pd, bcr) =>
    match pd with
    | [] =>
      { total_participants := 0
        completion_percentage := 0
        average_progress := 0
        top_performer := ⟨"N/A", "N/A", 0⟩
        badge_completion_rate := bcr
        badge_popularity := [] }
    | p0 :: rest =>
      { total_participants := (p0 :: rest).length
        completion_percentage :=
          pyRoundDiv
            (100 * ((((p0 :: rest).filter (fun p => p.completed_labs == LABS.length)).length : Nat) : Int))
            (((p0 :: rest).length : Nat) : Int)
        average_progress :=
          pyRoundDiv ((((p0 :: rest).map (fun p => p.completed_labs)).sum : Nat) : Int)
            (((p0 :: rest).length : Nat) : Int)
        top_performer :=
          if 0 < p0.completed_labs then ⟨p0.name, p0.initials, p0.completed_labs⟩
          else ⟨"N/A", "N/A", 0⟩
        badge_completion_rate := bcr
        badge_popularity := (sortDescBy (fun p => p.2) bcr).take 6 }

/-- `/api/progress-data` of `app.py`. -/
def get_progress_data (fetch : Except String (List Row)) : ProgressPayload :=
  { labs := LABS
    participants := (get_processed_participant_data fetch).1 }

end App

namespace MainApp

/-- One iteration of the `for row in data` loop of `get_participant_data`:
`row["name"]` / `row["email"]` raise `KeyError` when the key is absent. -/
def rowSummary (r : Row) : Except String Summary :=
  match r.name, r.email with
  | some n, some e =>
    Except.ok
      { name := n
        email := e
        completed_labs := (completedList LABS r).length
        name_of_completed_labs := completedList LABS r }
  | _, _ => Except.error "KeyError"

/-- `ranking_list` in input order; the first raising row aborts the call. -/
def rankingList : List Row → Except String (List Summary)
  | [] => Except.ok []
  | r :: rest =>
    match rowSummary r with
    | Except.error e => Except.error e
    | Except.ok s => (rankingList rest).map (fun l => s :: l)

/-- One entry of `participant_data` in `get_participant_data`: no `email`
key, and no `badge_count`/`completion_percentage` yet. -/
def addRank (n : Nat) (s : Summary) : Ranked :=
  { name := s.name
    email := none
    completed_labs := s.completed_labs
    name_of_completed_labs := s.name_of_completed_labs
    rank := n
    initials := get_initials s.name
    badge_count := none
    completion_percentage := none }

/-- `for rank, user in enumerate(ranking_list, start=1)`. -/
def addRanks : Nat → List Summary → List Ranked
  | _, [] => []
  | n, s :: rest => addRank n s :: addRanks (n + 1) rest

/-- `get_participant_data` of the second file: fetch, per-row dicts, stable
descending sort, ranks.  Any raised exception propagates. -/
def get_participant_data (rows : List Row) : Except String (List Ranked) :=
  (rankingList rows).map (fun l => addRanks 1 (sortDescBy (fun s => s.completed_labs) l))

/-- `labs_completion_rate` of the second file: one count query per lab, in
`LABS` order (modelled against the same record set as the fetch). -/
def labs_completion_rate (rows : List Row) : List (String × Nat) :=
  LABS.map (fun lab => (lab, (rows.filter (fun r => rowYes r lab)).length))

/-- `/api/home-data` of the second file.  There is no try/except anywhere
on this path: a failing fetch or a missing key propagates as an error. -/
def get_stats (fetch : Except String (List Row)) : Except String HomePayload :=
  match fetch with
  | Except.error e => Except.error e
  | Except.ok rows =>
    (get_participant_data rows).map (fun pd =>
      { total_participants := pd.length
        completion_percentage :=
          if 0 < pd.length then
            pyRoundDiv (100 * (((pd.map (fun p => p.completed_labs)).sum : Nat) : Int))
              ((20 * pd.length : Nat) : Int)
          else 0
        average_progress :=
          if 0 < pd.length then
            pyRoundDiv (((pd.map (fun p => p.completed_labs)).sum : Nat) : Int)
              ((pd.length : Nat) : Int)
          else 0
        top_performer :=
          match pd.find? (fun p => p.rank == 1 && p.completed_labs != 0) with
          | some p => ⟨p.name, p.initials, p.completed_labs⟩
          | none => ⟨"N/A", "N/A", 0⟩
        badge_completion_rate := labs_completion_rate rows
        badge_popularity := (sortDescBy (fun p => p.2) (labs_completion_rate rows)).take 6 })

/-- `/api/progress-data` of the second file: `get_participant_data`, then
each dict gains `badge_count` and `completion_percentage`. -/
def get_progress_data (fetch : Except String (List Row)) : Except String ProgressPayload :=
  match fetch with
  | Except.error e => Except.error e
  | Except.ok rows =>
    (get_participant_data rows).map (fun pd =>
      { labs := LABS
        participants := pd.map (fun p =>
          { p with
            badge_count := some p.completed_labs
            completion_percentage :=
              some (pyRoundDiv (100 * (p.completed_labs : Int)) (LABS.length : Int)) }) })

end MainApp

/-- `true` iff the handler produced a response instead of raising. -/
def exceptIsOk {ε α : Type} : Except ε α → Bool
  | Except.ok _ => true
  | Except.error _ => false

instance {ε α : Type} [DecidableEq ε] [DecidableEq α] : DecidableEq (Except ε α) := fun x y =>
  match x, y with
  | Except.ok a, Except.ok b =>
    if h : a = b then isTrue (by rw [h]) else isFalse (fun hc => Except.noConfusion hc h)
  | Except.error a, Except.error b =>
    if h : a = b then isTrue (by rw [h]) else isFalse (fun hc => Except.noConfusion hc h)
  | Except.ok _, Except.error _ => isFalse (fun hc => Except.noConfusion hc)
  | Except.error _, Except.ok _ => isFalse (fun hc => Except.noConfusion hc)

/-- A row that completed every lab (used as a concrete test input). -/
def wrowFull : Row :=
  { name := some "Ada Lovelace"
    email := some "ada@example.com"
    labValue := fun _ => some "Yes" }

/-- A row that completed no lab (used as a concrete test input). -/
def wrowNone : Row :=
  { name := some "Bob Marley"
    email := some "bob@example.com"
    labValue := fun _ => none }

/-- A row that completed exactly one lab (used as a concrete test input). -/
def wrowOne : Row :=
  { name := some "Carol Oh"
    email := some "carol@example.com"
    labValue := fun lab => if lab = "Get Started with Looker" then some "Yes" else some "No" }

section SortLemmas

variable {α : Type} (key : α → Nat)

theorem insLE_perm (x : α) (l : List α) : (insLE key x l).Perm (x :: l) := by
  induction l with
  | nil => exact List.Perm.refl _
  | cons y ys ih =>
    by_cases h : key y < key x
    · simp only [insLE, if_pos h]
      exact List.Perm.refl _
    · simp only [insLE, if_neg h]
      exact (List.Perm.cons y ih).trans (List.Perm.swap x y ys)

theorem foldl_insLE_perm (l acc : List α) :
    (l.foldl (fun a y => insLE key y a) acc).Perm (acc ++ l) := by
  induction l generalizing acc with
  | nil => simp
  | cons x xs ih =>
    simp only [List.foldl_cons]
    exact (ih (insLE key x acc)).trans
      (((insLE_perm key x acc).append_right xs).trans List.perm_middle.symm)

theorem sortDescBy_perm (l : List α) : (sortDescBy key l).Perm l := by
  simpa [sortDescBy] using foldl_insLE_perm key l []

theorem insLE_pairwise (x : α) (l : List α)
    (h : l.Pairwise (fun a b => key b ≤ key a)) :
    (insLE key x l).Pairwise (fun a b => key b ≤ key a) := by
  induction l with
  | nil => simp [insLE]
  | cons y ys ih =>
    obtain ⟨hy, hys⟩ := List.pairwise_cons.mp h
    by_cases hlt : key y < key x
    · simp only [insLE, if_pos hlt]
      refine List.Pairwise.cons ?_ h
      intro z hz
      rcases List.mem_cons.mp hz with rfl | hzys
      · exact Nat.le_of_lt hlt
      · exact Nat.le_trans (hy z hzys) (Nat.le_of_lt hlt)
    · simp only [insLE, if_neg hlt]
      refine List.Pairwise.cons ?_ (ih hys)
      intro z hz
      rcases List.mem_cons.mp ((insLE_perm key x ys).mem_iff.mp hz) with rfl | hzys
      · exact Nat.le_of_not_lt hlt
      · exact hy z hzys

theorem foldl_insLE_pairwise (l acc : List α)
    (h : acc.Pairwise (fun a b => key b ≤ key a)) :
    (l.foldl (fun a y => insLE key y a) acc).Pairwise (fun a b => key b ≤ key a) := by
  induction l generalizing acc with
  | nil => simpa using h
  | cons x xs ih => exact ih _ (insLE_pairwise key x acc h)

theorem sortDescBy_pairwise (l : List α) :
    (sortDescBy key l).Pairwise (fun a b => key b ≤ key a) :=
  foldl_insLE_pairwise key l [] List.Pairwise.nil

theorem insLE_filter (x : α) (l : List α) (c : Nat)
    (h : l.Pairwise (fun a b => key b ≤ key a)) :
    (insLE key x l).filter (fun y => key y == c)
      = l.filter (fun y => key y == c) ++ if key x = c then [x] else [] := by
  induction l with
  | nil => by_cases hxc : key x = c <;> simp [insLE, hxc]
  | cons y ys ih =>
    obtain ⟨hy, hys⟩ := List.pairwise_cons.mp h
    by_cases hlt : key y < key x
    · simp only [insLE, if_pos hlt]
      by_cases hxc : key x = c
      · have hnone : (y :: ys).filter (fun z => key z == c) = [] := by
          rw [List.filter_eq_nil_iff]
          intro z hz
          rcases List.mem_cons.mp hz with rfl | hzys
          · simp only [beq_iff_eq]
            omega
          · have hzy := hy z hzys
            simp only [beq_iff_eq]
            omega
        rw [List.filter_cons]
        simp [hxc, hnone]
      · rw [List.filter_cons]
        simp [hxc]
    · simp only [insLE, if_neg hlt]
      rw [List.filter_cons, List.filter_cons, ih hys]
      by_cases hyc : key y = c <;> simp [hyc]

theorem foldl_insLE_filter (l acc : List α) (c : Nat)
    (h : acc.Pairwise (fun a b => key b ≤ key a)) :
    (l.foldl (fun a y => insLE key y a) acc).filter (fun y => key y == c)
      = acc.filter (fun y => key y == c) ++ l.filter (fun y => key y == c) := by
  induction l generalizing acc with
  | nil => simp
  | cons x xs ih =>
    simp only [List.foldl_cons]
    rw [ih _ (insLE_pairwise key x acc h), insLE_filter key x acc c h, List.filter_cons]
    by_cases hxc : key x = c <;> simp [hxc]

theorem sortDescBy_filter (l : List α) (c : Nat) :
    (sortDescBy key l).filter (fun y => key y == c) = l.filter (fun y => key y == c) := by
  simpa [sortDescBy] using foldl_insLE_filter key l [] c List.Pairwise.nil

theorem take_filter_take {β : Type} (l : List β) (p : β → Bool) :
    ∀ n : Nat, ∃ k, (l.take n).filter p = (l.filter p).take k := by
  induction l with
  | nil =>
    intro n
    exact ⟨0, by simp⟩
  | cons x xs ih =>
    intro n
    cases n with
    | zero => exact ⟨0, by simp⟩
    | succ m =>
      obtain ⟨k, hk⟩ := ih m
      by_cases hx : p x
      · exact ⟨k + 1, by simp [List.take_succ_cons, List.filter_cons, hx, hk]⟩
      · exact ⟨k, by simp [List.take_succ_cons, List.filter_cons, hx, hk]⟩

end SortLemmas


section CountLemmas

theorem bumpLab_keys (m : List (String × Nat)) (k : String) :
    (bumpLab m k).map Prod.fst = m.map Prod.fst := by
  induction m with
  | nil => rfl
  | cons p ps ih =>
    by_cases h : p.1 = k <;> simp [bumpLab, h] <;> simpa [bumpLab] using ih

theorem bumpLab_of_not_mem (m : List (String × Nat)) (k : String)
    (h : k ∉ m.map Prod.fst) : bumpLab m k = m := by
  induction m with
  | nil => rfl
  | cons p ps ih =>
    simp only [List.map_cons, List.mem_cons, not_or] at h
    have hpk : p.1 ≠ k := fun hc => h.1 hc.symm
    simp only [bumpLab, List.map_cons, if_neg hpk]
    have := ih h.2
    simp only [bumpLab] at this
    rw [this]

theorem bumpLab_sum (m : List (String × Nat)) (k : String)
    (hmem : k ∈ m.map Prod.fst) (hnd : (m.map Prod.fst).Nodup) :
    ((bumpLab m k).map Prod.snd).sum = (m.map Prod.snd).sum + 1 := by
  induction m with
  | nil => simp at hmem
  | cons p ps ih =>
    rw [List.map_cons] at hmem
    simp only [List.map_cons, List.nodup_cons] at hnd
    rcases List.mem_cons.mp hmem with hk | hk
    · have hps : bumpLab ps k = ps :=
        bumpLab_of_not_mem ps k (fun hc => hnd.1 (hk ▸ hc))
      simp only [bumpLab] at hps
      simp only [bumpLab, List.map_cons, if_pos hk.symm]
      rw [hps]
      simp
      omega
    · have hpk : p.1 ≠ k := fun h => hnd.1 (h ▸ hk)
      have hrec := ih hk hnd.2
      simp only [bumpLab, List.map_cons, if_neg hpk, List.sum_cons] at *
      omega

theorem applyRow_keys (r : Row) (catalog : List String) (m : List (String × Nat)) :
    (applyRow r catalog m).map Prod.fst = m.map Prod.fst := by
  induction catalog generalizing m with
  | nil => rfl
  | cons lab labs ih =>
    simp only [applyRow]
    by_cases h : rowYes r lab
    · rw [if_pos h, ih, bumpLab_keys]
    · rw [if_neg h, ih]

theorem applyRow_sum (r : Row) (catalog : List String) (m : List (String × Nat))
    (hsub : ∀ lab ∈ catalog, lab ∈ m.map Prod.fst) (hnd : (m.map Prod.fst).Nodup) :
    ((applyRow r catalog m).map Prod.snd).sum
      = (m.map Prod.snd).sum + (catalog.filter (rowYes r)).length := by
  induction catalog generalizing m with
  | nil => simp [applyRow]
  | cons lab labs ih =>
    simp only [applyRow, List.filter_cons]
    by_cases h : rowYes r lab
    · rw [if_pos h]
      have hkeys := bumpLab_keys m lab
      have hrec := ih (bumpLab m lab)
        (fun l hl => hkeys ▸ hsub l (List.mem_cons_of_mem lab hl)) (hkeys ▸ hnd)
      rw [hrec, bumpLab_sum m lab (hsub lab (List.mem_cons_self lab labs)) hnd]
      simp [h]
      omega
    · rw [if_neg h, ih m (fun l hl => hsub l (List.mem_cons_of_mem lab hl)) hnd]
      simp [h]

theorem tallyRows_keys (catalog : List String) (records : List Row)
    (m : List (String × Nat)) :
    (tallyRows catalog records m).map Prod.fst = m.map Prod.fst := by
  induction records generalizing m with
  | nil => rfl
  | cons r rs ih =>
    simp only [tallyRows]
    rw [ih, applyRow_keys]

theorem tallyRows_sum (catalog : List String) (records : List Row)
    (m : List (String × Nat))
    (hsub : ∀ lab ∈ catalog, lab ∈ m.map Prod.fst) (hnd : (m.map Prod.fst).Nodup) :
    ((tallyRows catalog records m).map Prod.snd).sum
      = (m.map Prod.snd).sum
        + (records.map (fun r => (catalog.filter (rowYes r)).length)).sum := by
  induction records generalizing m with
  | nil => simp [tallyRows]
  | cons r rs ih =>
    simp only [tallyRows, List.map_cons, List.sum_cons]
    have hkeys := applyRow_keys r catalog m
    rw [ih (applyRow r catalog m) (fun l hl => hkeys ▸ hsub l hl) (hkeys ▸ hnd),
      applyRow_sum r catalog m hsub hnd]
    omega

theorem map_pair_fst (l : List String) :
    (l.map (fun lab => (lab, (0 : Nat)))).map Prod.fst = l := by
  induction l <;> simp_all

theorem map_pair_snd_sum (l : List String) :
    ((l.map (fun lab => (lab, (0 : Nat)))).map Prod.snd).sum = 0 := by
  induction l <;> simp_all

theorem labCountsInit_keys (catalog : List String) :
    (labCountsInit catalog).map Prod.fst = catalog.dedup := by
  unfold labCountsInit
  exact map_pair_fst catalog.dedup

theorem labCountsInit_sum (catalog : List String) :
    ((labCountsInit catalog).map Prod.snd).sum = 0 := by
  unfold labCountsInit
  exact map_pair_snd_sum catalog.dedup

theorem labCountsOf_keys (catalog : List String) (records : List Row) :
    (labCountsOf catalog records).map Prod.fst = catalog.dedup := by
  unfold labCountsOf
  rw [tallyRows_keys, labCountsInit_keys]

theorem labCountsOf_sum (catalog : List String) (records : List Row) :
    ((labCountsOf catalog records).map Prod.snd).sum
      = (records.map (fun r => (catalog.filter (rowYes r)).length)).sum := by
  unfold labCountsOf
  rw [tallyRows_sum catalog records (labCountsInit catalog)
    (fun lab hl => by rw [labCountsInit_keys]; exact List.mem_dedup.mpr hl)
    (by rw [labCountsInit_keys]; exact List.nodup_dedup catalog)]
  rw [labCountsInit_sum]
  omega

end CountLemmas

section PipelineLemmas

theorem appAddRanks_map_rank (catalog : List String) :
    ∀ (n : Nat) (l : List Summary),
      (App.addRanks catalog n l).map (fun p => p.rank) = List.range' n l.length := by
  intro n l
  induction l generalizing n with
  | nil => rfl
  | cons s rest ih =>
    simp [App.addRanks, App.addRank, ih, List.range'_succ]

theorem appAddRanks_map_completed (catalog : List String) :
    ∀ (n : Nat) (l : List Summary),
      (App.addRanks catalog n l).map (fun p => p.completed_labs)
        = l.map (fun s => s.completed_labs) := by
  intro n l
  induction l generalizing n with
  | nil => rfl
  | cons s rest ih => simp [App.addRanks, App.addRank, ih]

theorem appAddRanks_map_pct (catalog : List String) :
    ∀ (n : Nat) (l : List Summary),
      (App.addRanks catalog n l).map (fun p => p.completion_percentage)
        = l.map (fun s => some (srcPct catalog s.completed_labs)) := by
  intro n l
  induction l generalizing n with
  | nil => rfl
  | cons s rest ih => simp [App.addRanks, App.addRank, ih]

theorem appAddRanks_map_nec (catalog : List String) :
    ∀ (n : Nat) (l : List Summary),
      (App.addRanks catalog n l).map (fun p => (p.name, p.email, p.completed_labs))
        = l.map (fun s => (s.name, some s.email, s.completed_labs)) := by
  intro n l
  induction l generalizing n with
  | nil => rfl
  | cons s rest ih => simp [App.addRanks, App.addRank, ih]

theorem appAddRanks_length (catalog : List String) :
    ∀ (n : Nat) (l : List Summary), (App.addRanks catalog n l).length = l.length := by
  intro n l
  induction l generalizing n with
  | nil => rfl
  | cons s rest ih => simp [App.addRanks, ih]

theorem sortedSummaries_length (catalog : List String) (records : List Row) :
    (sortedSummaries catalog records).length = records.length := by
  unfold sortedSummaries summariesRaw
  rw [(sortDescBy_perm _ _).length_eq, List.length_map]

theorem finalData_length (catalog : List String) (records : List Row) :
    (App.finalData catalog records).length = records.length := by
  unfold App.finalData
  rw [appAddRanks_length, sortedSummaries_length]

theorem finalData_map_completed_perm (catalog : List String) (records : List Row) :
    ((App.finalData catalog records).map (fun p => p.completed_labs)).Perm
      (records.map (fun r => (completedList catalog r).length)) := by
  unfold App.finalData
  rw [appAddRanks_map_completed]
  refine ((sortDescBy_perm (fun s : Summary => s.completed_labs)
    (summariesRaw catalog records)).map (fun s => s.completed_labs)).trans ?_
  unfold summariesRaw
  rw [List.map_map]
  exact List.Perm.refl _

theorem finalData_count_completed (catalog : List String) (records : List Row) (K : Nat) :
    ((App.finalData catalog records).filter (fun p => p.completed_labs == K)).length
      = (records.filter (fun r => (completedList catalog r).length == K)).length := by
  rw [← List.countP_eq_length_filter, ← List.countP_eq_length_filter]
  have h1 : List.countP (fun p => p.completed_labs == K) (App.finalData catalog records)
      = List.countP (fun c => c == K)
          ((App.finalData catalog records).map (fun p => p.completed_labs)) := by
    rw [List.countP_map]
    rfl
  rw [h1, (finalData_map_completed_perm catalog records).countP_eq, List.countP_map]
  rfl

theorem finalData_sum_completed (catalog : List String) (records : List Row) :
    ((App.finalData catalog records).map (fun p => p.completed_labs)).sum
      = (records.map (fun r => (completedList catalog r).length)).sum :=
  (finalData_map_completed_perm catalog records).sum_eq

theorem mainAddRanks_map_completed :
    ∀ (n : Nat) (l : List Summary),
      (MainApp.addRanks n l).map (fun p => p.completed_labs)
        = l.map (fun s => s.completed_labs) := by
  intro n l
  induction l generalizing n with
  | nil => rfl
  | cons s rest ih => simp [MainApp.addRanks, MainApp.addRank, ih]

theorem mainAddRanks_length :
    ∀ (n : Nat) (l : List Summary), (MainApp.addRanks n l).length = l.length := by
  intro n l
  induction l generalizing n with
  | nil => rfl
  | cons s rest ih => simp [MainApp.addRanks, ih]

theorem rowSummary_ok (r : Row) (s : Summary) (h : MainApp.rowSummary r = Except.ok s) :
    s.completed_labs = (completedList LABS r).length := by
  revert h
  unfold MainApp.rowSummary
  cases r.name with
  | none => intro h; exact Except.noConfusion h
  | some n =>
    cases r.email with
    | none => intro h; exact Except.noConfusion h
    | some e =>
      intro h
      injection h with h
      rw [← h]

theorem rankingList_ok (rows : List Row) (l : List Summary)
    (h : MainApp.rankingList rows = Except.ok l) :
    l.map (fun s => s.completed_labs)
        = rows.map (fun r => (completedList LABS r).length)
      ∧ l.length = rows.length := by
  induction rows generalizing l with
  | nil =>
    simp only [MainApp.rankingList] at h
    injection h with h
    subst h
    simp
  | cons r rs ih =>
    simp only [MainApp.rankingList] at h
    cases hr : MainApp.rowSummary r with
    | error e => rw [hr] at h; exact Except.noConfusion h
    | ok s =>
      rw [hr] at h
      cases hrec : MainApp.rankingList rs with
      | error e =>
        rw [hrec] at h
        exact Except.noConfusion h
      | ok l' =>
        rw [hrec] at h
        simp only [Except.map] at h
        injection h with h
        subst h
        obtain ⟨h1, h2⟩ := ih l' hrec
        refine ⟨?_, by simp [h2]⟩
        simp only [List.map_cons, h1, rowSummary_ok r s hr]

theorem get_participant_data_ok (rows : List Row) (pd : List Ranked)
    (h : MainApp.get_participant_data rows = Except.ok pd) :
    pd.length = rows.length
      ∧ (pd.map (fun p => p.completed_labs)).sum
          = (rows.map (fun r => (completedList LABS r).length)).sum := by
  unfold MainApp.get_participant_data at h
  cases hr : MainApp.rankingList rows with
  | error e => rw [hr] at h; exact Except.noConfusion h
  | ok l =>
    rw [hr] at h
    simp only [Except.map] at h
    injection h with h
    subst h
    obtain ⟨hmap, hlen⟩ := rankingList_ok rows l hr
    constructor
    · rw [mainAddRanks_length, (sortDescBy_perm _ _).length_eq, hlen]
    · rw [mainAddRanks_map_completed,
        ((sortDescBy_perm (fun s : Summary => s.completed_labs) l).map
          (fun s => s.completed_labs)).sum_eq, hmap]

theorem rankingList_all_present (rows : List Row)
    (h : rows.all (fun r => r.name.isSome && r.email.isSome) = true) :
    MainApp.rankingList rows = Except.ok (summariesRaw LABS rows) := by
  induction rows with
  | nil => rfl
  | cons r rs ih =>
    simp only [List.all_cons, Bool.and_eq_true] at h
    obtain ⟨⟨hn, he⟩, hrest⟩ := h
    obtain ⟨n, hn'⟩ := Option.isSome_iff_exists.mp hn
    obtain ⟨e, he'⟩ := Option.isSome_iff_exists.mp he
    simp only [MainApp.rankingList, MainApp.rowSummary, hn', he', ih hrest, Except.map,
      summariesRaw, List.map_cons]
    congr 2
    simp [processRow, hn', he']

end PipelineLemmas

theorem appAddRanks_map_on_completed {β : Type} (g : Nat → β) (catalog : List String) :
    ∀ (n : Nat) (l : List Summary),
      (App.addRanks catalog n l).map (fun p => g p.completed_labs)
        = l.map (fun s => g s.completed_labs) := by
  intro n l
  induction l generalizing n with
  | nil => rfl
  | cons s rest ih => simp [App.addRanks, App.addRank, ih]

/-- C5: the descending sort of the per-participant summaries is stable — for
every completed-count `c`, the participants of count `c` appear in the sorted
list in exactly their input order (list filtering preserves relative order, so
this is the standard statement of stability). -/
theorem claim5_sort_stable (catalog : List String) (records : List Row) (c : Nat) :
    (sortedSummaries catalog records).filter (fun s => s.completed_labs == c)
      = (summariesRaw catalog records).filter (fun s => s.completed_labs == c) :=
  sortDescBy_filter (fun s : Summary => s.completed_labs) (summariesRaw catalog records) c

/-- C6: the values of the labCounts mapping produced by the aggregator sum to
the sum of `completed_labs` over all produced summaries, for every catalog and
record set. -/
theorem claim6_labCounts_sum (catalog : List String) (records : List Row) :
    ((labCountsOf catalog records).map Prod.snd).sum
      = ((App.finalData catalog records).map (fun p => p.completed_labs)).sum := by
  rw [labCountsOf_sum, finalData_sum_completed]
  rfl

/-- C10: `get_processed_participant_data` of `app.py` is total (the model has
no failure case for the processing loop): every input row yields exactly one
summary, whose name is `row.get("name", "N/A")` — hence the string "N/A" when
the key is missing — likewise for email, and whose completed-count counts
exactly the catalog labs whose stored value is the string "Yes" (a missing
column or any other value is not completed). -/
theorem claim10_missing_fields (records : List Row) :
    (((App.get_processed_participant_data (Except.ok records)).1).map
        (fun p => (p.name, p.email, p.completed_labs))).Perm
      (records.map (fun r =>
        (r.name.getD "N/A", some (r.email.getD "N/A"),
          (LABS.filter (fun lab => r.labValue lab == some "Yes")).length))) := by
  show ((App.finalData LABS records).map _).Perm _
  unfold App.finalData
  rw [appAddRanks_map_nec]
  refine ((sortDescBy_perm (fun s : Summary => s.completed_labs)
    (summariesRaw LABS records)).map
      (fun s => (s.name, some s.email, s.completed_labs))).trans ?_
  unfold summariesRaw
  rw [List.map_map]
  exact List.Perm.refl _

/-- C3 (amended): when the store read raises, `app.py`'s aggregator returns the
empty list and the all-zero labCounts mapping (one entry per catalog lab), and
both of its endpoints return the valid empty state rather than an error; in the
duplicate file `GDG-Study-Jam-Leaderboard-main/app.py` there is no exception
handler, so the error propagates out of both endpoints. -/
theorem claim3_fetch_error (msg : String) :
    App.get_processed_participant_data (Except.error msg)
        = ([], LABS.map (fun lab => (lab, 0)))
      ∧ App.get_stats (Except.error msg)
          = { total_participants := 0
              completion_percentage := 0
              average_progress := 0
              top_performer := ⟨"N/A", "N/A", 0⟩
              badge_completion_rate := LABS.map (fun lab => (lab, 0))
              badge_popularity := [] }
      ∧ App.get_progress_data (Except.error msg) = { labs := LABS, participants := [] }
      ∧ MainApp.get_stats (Except.error msg) = Except.error msg
      ∧ MainApp.get_progress_data (Except.error msg) = Except.error msg := by
  have hdedup : LABS.dedup = LABS := by decide
  have hinit : labCountsInit LABS = LABS.map (fun lab => (lab, 0)) := by
    unfold labCountsInit
    rw [hdedup]
  refine ⟨?_, ?_, rfl, rfl, rfl⟩
  · show ([], labCountsInit LABS) = _
    rw [hinit]
  · simp only [App.get_stats, App.get_processed_participant_data, hinit]

/-- C3, counterexample to the claim as stated: the claim asserts the calling
endpoint never surfaces a store failure, but the duplicate file's endpoints
propagate the raised error (an HTTP 500, not a rendered empty state). -/
theorem claim3_counterexample :
    exceptIsOk (MainApp.get_stats (Except.error "down")) = false
      ∧ MainApp.get_stats (Except.error "down") = Except.error "down"
      ∧ exceptIsOk (MainApp.get_progress_data (Except.error "down")) = false :=
  ⟨rfl, rfl, rfl⟩

/-- C9: `get_initials` returns the uppercased first letters of the first two
whitespace-separated tokens when there are at least two, the uppercased first
letter of the only token when there is exactly one, and `""` for the empty
name; in particular "Ada Lovelace" gives "AL", "Madonna" gives "M", and ""
gives "". -/
theorem claim9_initials (name : String) :
    (∀ (t1 t2 : String) (rest : List String),
        pySplit name = t1 :: t2 :: rest →
          get_initials name = firstUpper t1 ++ firstUpper t2)
      ∧ (∀ t : String, pySplit name = [t] → get_initials name = firstUpper t)
      ∧ (name = "" → get_initials name = "")
      ∧ get_initials "Ada Lovelace" = "AL"
      ∧ get_initials "Madonna" = "M"
      ∧ get_initials "" = "" := by
  refine ⟨?_, ?_, ?_, by decide, by decide, rfl⟩
  · intro t1 t2 rest h
    simp [get_initials, h]
  · intro t h
    simp [get_initials, h]
  · intro h
    subst h
    rfl

/-- C9, witness: the general theorem instantiated at the three example names,
with each token-shape hypothesis discharged by computation. -/
theorem claim9_witness :
    (pySplit "Ada Lovelace" = ["Ada", "Lovelace"]
        ∧ get_initials "Ada Lovelace" = firstUpper "Ada" ++ firstUpper "Lovelace")
      ∧ (pySplit "Madonna" = ["Madonna"] ∧ get_initials "Madonna" = firstUpper "Madonna")
      ∧ ("" = "" ∧ get_initials "" = "") :=
  ⟨⟨by decide, (claim9_initials "Ada Lovelace").1 "Ada" "Lovelace" [] (by decide)⟩,
   ⟨by decide, (claim9_initials "Madonna").2.1 "Madonna" (by decide)⟩,
   ⟨rfl, (claim9_initials "").2.2.1 rfl⟩⟩

/-- C4: for every non-empty catalog and record set of N records, the ranks in
the aggregator's output are exactly 1..N in order (so each rank is a unique
integer in [1, N], with no gaps and no shared rank on ties), and the
completed-counts are non-increasing along increasing rank. -/
theorem claim4_ranks (catalog : List String) (records : List Row) (_h : catalog ≠ []) :
    (App.finalData catalog records).map (fun p => p.rank)
        = List.range' 1 records.length
      ∧ (App.finalData catalog records).Pairwise
          (fun a b => b.completed_labs ≤ a.completed_labs) := by
  constructor
  · unfold App.finalData
    rw [appAddRanks_map_rank, sortedSummaries_length]
  · unfold App.finalData
    have hmapped : List.Pairwise (fun (x y : Nat) => y ≤ x)
        ((App.addRanks catalog 1 (sortedSummaries catalog records)).map
          (fun p => p.completed_labs)) := by
      rw [appAddRanks_map_completed]
      exact List.pairwise_map.mpr
        (sortDescBy_pairwise (fun s : Summary => s.completed_labs)
          (summariesRaw catalog records))
    exact List.pairwise_map.mp hmapped

/-- C4, witness: the rank/order property at the 19-lab catalog and a concrete
three-row record set. -/
theorem claim4_witness :
    LABS ≠ []
      ∧ ((App.finalData LABS [wrowOne, wrowNone, wrowFull]).map (fun p => p.rank)
            = List.range' 1 ([wrowOne, wrowNone, wrowFull] : List Row).length
          ∧ (App.finalData LABS [wrowOne, wrowNone, wrowFull]).Pairwise
              (fun a b => b.completed_labs ≤ a.completed_labs)) :=
  ⟨by decide, claim4_ranks LABS [wrowOne, wrowNone, wrowFull] (by decide)⟩

/-- C7: for every record set, the `badge_popularity` field of the home
endpoint has at most 6 entries and is non-increasing in the count; its keys
are drawn from `badge_completion_rate`, whose key order is exactly the
catalog order, and for each count value the entries with that count are an
initial segment of the equally-counted entries of `badge_completion_rate` in
that (catalog) order — i.e. ties are broken by original catalog order. -/
theorem claim7_badge_popularity (records : List Row) :
    ((App.get_stats (Except.ok records)).badge_popularity).length ≤ 6
      ∧ ((App.get_stats (Except.ok records)).badge_popularity).Pairwise
          (fun p q => q.2 ≤ p.2)
      ∧ ((App.get_stats (Except.ok records)).badge_completion_rate).map Prod.fst = LABS
      ∧ ∀ c : Nat, ∃ k : Nat,
          ((App.get_stats (Except.ok records)).badge_popularity).filter
              (fun p => p.2 == c)
            = (((App.get_stats (Except.ok records)).badge_completion_rate).filter
                (fun p => p.2 == c)).take k := by
  have hdedup : LABS.dedup = LABS := by decide
  cases hpd : App.finalData LABS records with
  | nil =>
    simp only [App.get_stats, App.get_processed_participant_data, hpd]
    refine ⟨by simp, by simp, ?_, fun c => ⟨0, by simp⟩⟩
    rw [labCountsOf_keys, hdedup]
  | cons p0 rest =>
    simp only [App.get_stats, App.get_processed_participant_data, hpd]
    refine ⟨?_, ?_, ?_, ?_⟩
    · rw [List.length_take]
      exact inf_le_left
    · exact List.Pairwise.sublist (List.take_sublist 6 _)
        (sortDescBy_pairwise (fun p : String × Nat => p.2) (labCountsOf LABS records))
    · rw [labCountsOf_keys, hdedup]
    · intro c
      obtain ⟨k, hk⟩ := take_filter_take
        (sortDescBy (fun p : String × Nat => p.2) (labCountsOf LABS records))
        (fun p => p.2 == c) 6
      refine ⟨k, ?_⟩
      rw [hk, sortDescBy_filter]

/-- C8: every produced summary's `completion_percentage` is the Python
rounding of `completed_labs / len(catalog) * 100` (the exact quotient
`100 * completed_labs / len(catalog)`); a participant with 0 completed labs
gets 0 and one who completed every catalog lab gets 100. -/
theorem claim8_summary_pct (catalog : List String) (records : List Row)
    (h : catalog ≠ []) :
    (App.finalData catalog records).map (fun p => p.completion_percentage)
        = (App.finalData catalog records).map
            (fun p => some (pyRoundDiv (100 * (p.completed_labs : Int))
              (catalog.length : Int)))
      ∧ pyRoundDiv (100 * ((0 : Nat) : Int)) (catalog.length : Int) = 0
      ∧ pyRoundDiv (100 * ((catalog.length : Nat) : Int)) (catalog.length : Int) = 100 := by
  have hlen0 : catalog.length ≠ 0 := fun hc => h (List.length_eq_zero.mp hc)
  have hlen : (0 : Int) < (catalog.length : Int) := by
    omega
  refine ⟨?_, ?_, ?_⟩
  · have hie : ¬(catalog.isEmpty = true) := fun hc => h (List.isEmpty_iff.mp hc)
    have hsrc : ∀ c : Nat,
        srcPct catalog c = pyRoundDiv (100 * (c : Int)) (catalog.length : Int) := by
      intro c
      unfold srcPct
      rw [if_neg hie]
    unfold App.finalData
    rw [appAddRanks_map_pct,
      appAddRanks_map_on_completed
        (fun c : Nat => some (pyRoundDiv (100 * (c : Int)) (catalog.length : Int)))]
    exact List.map_congr_left (fun s _ => by rw [hsrc])
  · have h0 : (100 : Int) * ((0 : Nat) : Int) = 0 := by norm_num
    rw [h0]
    unfold pyRoundDiv
    rw [Int.zero_emod, Int.zero_ediv]
    rw [if_pos]
    omega
  · have hne : (catalog.length : Int) ≠ 0 := by omega
    have hmod : (100 * ((catalog.length : Nat) : Int)) % (catalog.length : Int) = 0 :=
      Int.mul_emod_left 100 _
    have hdiv : (100 * ((catalog.length : Nat) : Int)) / (catalog.length : Int) = 100 :=
      Int.mul_ediv_cancel 100 hne
    unfold pyRoundDiv
    rw [hmod, hdiv]
    rw [if_pos]
    omega

/-- C8, witness: the percentage property at the 19-lab catalog and a concrete
record set containing a fully-finished row and a zero-row. -/
theorem claim8_witness :
    LABS ≠ []
      ∧ ((App.finalData LABS [wrowFull, wrowNone]).map (fun p => p.completion_percentage)
            = (App.finalData LABS [wrowFull, wrowNone]).map
                (fun p => some (pyRoundDiv (100 * (p.completed_labs : Int))
                  (LABS.length : Int)))
          ∧ pyRoundDiv (100 * ((0 : Nat) : Int)) (LABS.length : Int) = 0
          ∧ pyRoundDiv (100 * ((LABS.length : Nat) : Int)) (LABS.length : Int) = 100) :=
  ⟨by decide, claim8_summary_pct LABS [wrowFull, wrowNone] (by decide)⟩

theorem mainShape_erase : ∀ (n : Nat) (l : List Summary),
    (MainApp.addRanks n l).map (fun p =>
        { p with
          badge_count := some p.completed_labs
          completion_percentage :=
            some (pyRoundDiv (100 * (p.completed_labs : Int)) (LABS.length : Int)) })
      = (App.addRanks LABS n l).map (fun p => { p with email := none }) := by
  have hpct : ∀ c : Nat,
      srcPct LABS c = pyRoundDiv (100 * (c : Int)) (LABS.length : Int) := by
    intro c
    unfold srcPct
    rw [if_neg (by decide)]
  intro n l
  induction l generalizing n with
  | nil => rfl
  | cons s rest ih =>
    simp only [MainApp.addRanks, App.addRanks, List.map_cons, ih]
    simp [MainApp.addRank, App.addRank, hpct]

/-- C1 (amended): for every non-empty record set, the `completion_percentage`
field of `app.py`'s home endpoint is the fully-finished rate
round((participants with completed-count = len(LABS)) / total * 100); the
duplicate file's home endpoint instead returns
round((sum of completed-counts) / (20 * total) * 100) whenever it returns at
all. -/
theorem claim1_completion_percentage (records : List Row) (h : records ≠ []) :
    (App.get_stats (Except.ok records)).completion_percentage
        = pyRoundDiv
            (100 * (((records.filter
              (fun r => (completedList LABS r).length == LABS.length)).length : Nat) : Int))
            ((records.length : Nat) : Int)
      ∧ (MainApp.get_stats (Except.ok records)).map (fun p => p.completion_percentage)
          = (MainApp.get_stats (Except.ok records)).map (fun _ =>
              pyRoundDiv
                (100 * (((records.map
                  (fun r => (completedList LABS r).length)).sum : Nat) : Int))
                ((20 * records.length : Nat) : Int)) := by
  constructor
  · cases hpd : App.finalData LABS records with
    | nil =>
      exfalso
      have hlen := finalData_length LABS records
      rw [hpd] at hlen
      exact h (List.length_eq_zero.mp hlen.symm)
    | cons p0 rest =>
      simp only [App.get_stats, App.get_processed_participant_data, hpd]
      have hcount := finalData_count_completed LABS records LABS.length
      rw [hpd] at hcount
      have hlen := finalData_length LABS records
      rw [hpd] at hlen
      rw [hcount, hlen]
  · cases hm : MainApp.get_participant_data records with
    | error e => simp only [MainApp.get_stats, hm, Except.map]
    | ok pd =>
      obtain ⟨hl, hs⟩ := get_participant_data_ok records pd hm
      have hpos : 0 < pd.length := by
        rw [hl]
        cases records with
        | nil => exact absurd rfl h
        | cons r rs => simp
      simp only [MainApp.get_stats, hm, Except.map]
      congr 1
      rw [if_pos hpos, hs, hl]

/-- C1, counterexample to the claim as stated: one participant who completed
all 19 labs.  The fully-finished rate the claim prescribes is 100, but the
duplicate file's home endpoint returns round((19 / (20·1)) · 100) = 95. -/
theorem claim1_counterexample :
    (MainApp.get_stats (Except.ok [wrowFull])).map (fun p => p.completion_percentage)
        = Except.ok 95
      ∧ pyRoundDiv
          (100 * ((([wrowFull].filter
            (fun r => (completedList LABS r).length == LABS.length)).length : Nat) : Int))
          ((([wrowFull] : List Row).length : Nat) : Int) = 100
      ∧ (95 : Int) ≠ 100 := by
  refine ⟨rfl, by decide, by decide⟩

/-- C1, witness: the amended statement at a concrete two-row record set. -/
theorem claim1_witness :
    ([wrowFull, wrowNone] : List Row) ≠ []
      ∧ ((App.get_stats (Except.ok [wrowFull, wrowNone])).completion_percentage
            = pyRoundDiv
                (100 * ((([wrowFull, wrowNone].filter
                  (fun r => (completedList LABS r).length == LABS.length)).length : Nat) : Int))
                ((([wrowFull, wrowNone] : List Row).length : Nat) : Int)
          ∧ (MainApp.get_stats (Except.ok [wrowFull, wrowNone])).map
                (fun p => p.completion_percentage)
              = (MainApp.get_stats (Except.ok [wrowFull, wrowNone])).map (fun _ =>
                  pyRoundDiv
                    (100 * ((([wrowFull, wrowNone].map
                      (fun r => (completedList LABS r).length)).sum : Nat) : Int))
                    ((20 * ([wrowFull, wrowNone] : List Row).length : Nat) : Int))) :=
  ⟨List.cons_ne_nil _ _,
   claim1_completion_percentage [wrowFull, wrowNone] (List.cons_ne_nil _ _)⟩

/-- C2 (amended): for record sets whose rows all carry the `name` and `email`
keys, the two files' per-participant outputs (aggregation plus the progress
endpoint's shaping) agree on every field except `email`: `app.py` includes it,
the duplicate file's participant dicts have no `email` key at all. -/
theorem claim2_pipelines (records : List Row)
    (h : records.all (fun r => r.name.isSome && r.email.isSome) = true) :
    (MainApp.get_progress_data (Except.ok records)).map (fun pl => pl.participants)
      = Except.ok ((App.get_progress_data (Except.ok records)).participants.map
          (fun p => { p with email := none })) := by
  have hrank := rankingList_all_present records h
  simp only [MainApp.get_progress_data, MainApp.get_participant_data, hrank, Except.map,
    App.get_progress_data, App.get_processed_participant_data]
  congr 1
  unfold App.finalData
  exact mainShape_erase 1 (sortedSummaries LABS records)

/-- C2, counterexample to the claim as stated: on a one-row record set the two
per-participant outputs differ (the first file's participant carries its
email, the second file's has no email key). -/
theorem claim2_counterexample :
    (MainApp.get_progress_data (Except.ok [wrowFull])).map (fun pl => pl.participants)
      ≠ Except.ok ((App.get_progress_data (Except.ok [wrowFull])).participants) := by
  decide

/-- C2, witness: the amended equivalence at a concrete two-row record set. -/
theorem claim2_witness :
    ([wrowFull, wrowOne] : List Row).all (fun r => r.name.isSome && r.email.isSome) = true
      ∧ (MainApp.get_progress_data (Except.ok [wrowFull, wrowOne])).map
            (fun pl => pl.participants)
          = Except.ok ((App.get_progress_data (Except.ok [wrowFull, wrowOne])).participants.map
              (fun p => { p with email := none })) :=
  ⟨by decide, claim2_pipelines [wrowFull, wrowOne] (by decide)⟩
